import Mathlib

/-!
Shallow embedding of the culture_sim repository (Go sources `main.go` and
`sim.go`) and verification of the frozen claims about it.

Culture codes are 24-bit integers packing 6 four-bit traits; they are
modelled as `Nat`. Go `int` arithmetic on these small nonnegative values is
exact, so no wraparound modelling is needed; quantities that can go negative
in the source (trait distances, grid index offsets) are modelled as `Int`.
Random draws (`rand.Intn`, `rand.Float64`) are modelled as oracle streams:
`rand.Intn n` takes the next stream value modulo `n` (realising exactly the
contract "a value in [0, n)"), and `rand.Float64` takes the next rational
from a stream (the admissibility hypothesis `0 ≤ x < 1` is stated where a
claim needs it).
-/

namespace CultureSim

/-- `MASKARRAY` from sim.go: per-position masks clearing one nibble of a
24-bit code. -/
def MASKARRAY : List Nat := [0xFFFFF0, 0xFFFF0F, 0xFFF0FF, 0xFF0FFF, 0xF0FFFF, 0x0FFFFF]

/-- `extract` from sim.go: nibble of `n` at position `pos`. -/
def extract (n : Nat) (pos : Nat) : Nat := (n >>> (4 * pos)) &&& 0xF

/-- `replace` from sim.go: clear nibble `pos` of `n` with `MASKARRAY[pos]`,
then xor in `replacement <<< 4*pos`. -/
def replace (n replacement : Nat) (pos : Nat) : Nat :=
  (n &&& MASKARRAY.getD pos 0) ^^^ (replacement <<< (4 * pos))

/-- `featureDistance` from sim.go: counts matching nibbles over positions
`0..4` (the source loop is `for i := 0; i < 5`), then returns `6 - features`. -/
def featureDistance (n1 n2 : Nat) : Nat :=
  let features := (List.range 5).foldl
    (fun acc i => if extract n1 i = extract n2 i then acc + 1 else acc) 0
  6 - features

/-- `traitDistance` from sim.go: absolute difference of the nibbles of `n1`
and `n2` at `pos` (Go ints, so signed). -/
def traitDistance (n1 n2 : Nat) (pos : Nat) : Int :=
  let d : Int := (extract n1 pos : Int) - (extract n2 pos : Int)
  if d < 0 then d * -1 else d

/-! ### Helper lemmas about the codec -/

/-- Each mask is the 24-bit all-ones word with nibble `p` cleared. -/
theorem maskarray_getD (p : Nat) (hp : p < 6) :
    MASKARRAY.getD p 0 = (2 ^ 24 - 1) ^^^ (0xF <<< (4 * p)) := by
  interval_cases p <;> rfl

theorem testBit_fifteen (i : Nat) : Nat.testBit 0xF i = decide (i < 4) := by
  have h : (0xF : Nat) = 2 ^ 4 - 1 := rfl
  rw [h, Nat.testBit_two_pow_sub_one]

/-- A bit of `replace n v p` at an offset `4*p + i` inside the replaced
nibble (`i < 4`) comes from `v` alone. -/
theorem testBit_replace_inside (n v p i : Nat) (hp : p < 6) (hi : i < 4) :
    Nat.testBit (replace n v p) (4 * p + i) = Nat.testBit v i := by
  unfold replace
  rw [maskarray_getD p hp]
  simp only [Nat.testBit_xor, Nat.testBit_and, Nat.testBit_shiftLeft,
    Nat.testBit_two_pow_sub_one, testBit_fifteen]
  have h24 : 4 * p + i < 24 := by omega
  have hge : 4 * p ≤ 4 * p + i := by omega
  have hsub : 4 * p + i - 4 * p = i := by omega
  simp [h24, hge, hsub, hi, Bool.xor_comm]

/-- A bit of `replace n v p` outside the replaced nibble is the same bit of
`n`, provided it lies inside the 24-bit window and `v < 16`. -/
theorem testBit_replace_outside (n v p j : Nat) (hp : p < 6) (hv : v < 16)
    (hj : j < 24) (hout : j < 4 * p ∨ 4 * p + 4 ≤ j) :
    Nat.testBit (replace n v p) j = Nat.testBit n j := by
  unfold replace
  rw [maskarray_getD p hp]
  simp only [Nat.testBit_xor, Nat.testBit_and, Nat.testBit_shiftLeft,
    Nat.testBit_two_pow_sub_one, testBit_fifteen]
  rcases hout with hlt | hge
  · have h1 : ¬ (4 * p ≤ j) := by omega
    simp [hj, h1]
  · have h1 : 4 * p ≤ j := by omega
    have h2 : ¬ (j - 4 * p < 4) := by omega
    have h3 : Nat.testBit v (j - 4 * p) = false := by
      apply Nat.testBit_lt_two_pow
      calc v < 16 := hv
        _ = 2 ^ 4 := rfl
        _ ≤ 2 ^ (j - 4 * p) := Nat.pow_le_pow_right (by omega) (by omega)
    simp [hj, h1, h2, h3]

/-! ### C2: extract after replace returns the replaced value -/

/-- **C2.** For every value `v ∈ [0,15]`, position `pos ∈ [0,5]` and culture
code `n` (in particular every `n ∈ [0, 0xFFFFFF]`),
`extract (replace n v pos) pos = v`. -/
theorem extract_replace_eq (n v pos : Nat) (hv : v < 16) (hpos : pos < 6) :
    extract (replace n v pos) pos = v := by
  apply Nat.eq_of_testBit_eq
  intro i
  unfold extract
  simp only [Nat.testBit_and, Nat.testBit_shiftRight, testBit_fifteen]
  by_cases hi : i < 4
  · rw [testBit_replace_inside n v pos i hpos hi]
    simp [hi]
  · have hvb : Nat.testBit v i = false := by
      apply Nat.testBit_lt_two_pow
      calc v < 16 := hv
        _ = 2 ^ 4 := rfl
        _ ≤ 2 ^ i := Nat.pow_le_pow_right (by omega) (by omega)
    simp [hi, hvb]

/-- Witness for C2 at `n = 0xABCDEF`, `v = 5`, `pos = 3`. -/
theorem extract_replace_eq_witness :
    (5 : Nat) < 16 ∧ (3 : Nat) < 6 ∧ extract (replace 0xABCDEF 5 3) 3 = 5 :=
  ⟨by decide, by decide, extract_replace_eq 0xABCDEF 5 3 (by decide) (by decide)⟩

/-! ### C7: replace is frame-preserving on the other nibbles -/

/-- **C7.** For every code `n ∈ [0, 0xFFFFFF]`, value `v ∈ [0,15]` and
positions `p ≠ q` in `[0,5]`, the nibble of `replace n v p` at `q` is
bit-identical to the nibble of `n` at `q`. -/
theorem replace_frame (n v p q : Nat) (_hn : n ≤ 0xFFFFFF) (hv : v < 16)
    (hp : p < 6) (hq : q < 6) (hne : q ≠ p) :
    extract (replace n v p) q = extract n q := by
  apply Nat.eq_of_testBit_eq
  intro i
  unfold extract
  simp only [Nat.testBit_and, Nat.testBit_shiftRight, testBit_fifteen]
  by_cases hi : i < 4
  · have hj : 4 * q + i < 24 := by omega
    have hout : 4 * q + i < 4 * p ∨ 4 * p + 4 ≤ 4 * q + i := by omega
    rw [testBit_replace_outside n v p (4 * q + i) hp hv hj hout]
  · simp [hi]

/-- Witness for C7 at `n = 0xABCDEF`, `v = 5`, `p = 3`, `q = 0`. -/
theorem replace_frame_witness :
    (0xABCDEF : Nat) ≤ 0xFFFFFF ∧ extract (replace 0xABCDEF 5 3) 0 = extract 0xABCDEF 0 :=
  ⟨by decide,
    replace_frame 0xABCDEF 5 3 0 (by decide) (by decide) (by decide) (by decide) (by decide)⟩

/-! ### C1: featureDistance counts only 5 of the 6 positions -/

/-- **C1 counterexample.** The claim says `featureDistance` equals
`6 - (matching positions among all 6)`, hence `featureDistance a a = 0`;
but at `n1 = n2 = 0` all 6 positions match while the source loop counts only
positions `0..4`, so the code returns `1`, not `0`. -/
theorem featureDistance_all_six_cex :
    6 - ((List.range 6).filter (fun i => extract 0 i = extract 0 i)).length = 0 ∧
      featureDistance 0 0 = 1 := by
  constructor
  · decide
  · decide

/-- **C1 amended.** `featureDistance n1 n2` equals `6` minus the number of
matching trait positions among positions `0..4` only (the source loop runs
`i < 5`); in particular `featureDistance a a = 1` for every code `a`. -/
theorem featureDistance_eq_six_sub_matches5 (n1 n2 : Nat) :
    featureDistance n1 n2 =
      6 - ((List.range 5).filter (fun i => extract n1 i = extract n2 i)).length ∧
    featureDistance n1 n1 = 1 := by
  have hfold : ∀ (m1 m2 : Nat) (l : List Nat) (a : Nat),
      l.foldl (fun acc i => if extract m1 i = extract m2 i then acc + 1 else acc) a =
        a + (l.filter (fun i => extract m1 i = extract m2 i)).length := by
    intro m1 m2 l
    induction l with
    | nil => intro a; simp
    | cons x xs ih =>
      intro a
      by_cases hx : extract m1 x = extract m2 x
      · simp [List.filter, hx, ih]
        omega
      · simp [List.filter, hx, ih]
  constructor
  · show (6 : Nat) -
        (List.range 5).foldl
          (fun acc i => if extract n1 i = extract n2 i then acc + 1 else acc) 0 = _
    rw [hfold, Nat.zero_add]
  · show (6 : Nat) -
        (List.range 5).foldl
          (fun acc i => if extract n1 i = extract n1 i then acc + 1 else acc) 0 = 1
    rw [hfold]
    have hself : (List.range 5).filter (fun i => extract n1 i = extract n1 i) =
        List.range 5 := by simp
    rw [hself]
    rfl

/-! ### Cells and colors (sim.go `Cell`, `getRGB`, `setRGB`, `createCell`) -/

/-- `CELLSIZE` from sim.go. -/
def CELLSIZE : Nat := 10

/-- Go's `uint8(x)` conversion on a nonnegative value. -/
def toUInt8 (x : Nat) : Nat := x % 256

/-- `getR` from sim.go: red byte of a color integer. -/
def getR (i : Nat) : Nat := toUInt8 ((i >>> 16) &&& 0xFF)

/-- `getG` from sim.go: green byte of a color integer. -/
def getG (i : Nat) : Nat := toUInt8 ((i >>> 8) &&& 0xFF)

/-- `getB` from sim.go: blue byte of a color integer. -/
def getB (i : Nat) : Nat := toUInt8 (i &&& 0xFF)

/-- Go's `color.RGBA`: four 8-bit components. -/
structure RGBA where
  r : Nat
  g : Nat
  b : Nat
  a : Nat
deriving DecidableEq

/-- `Cell` from sim.go: position, radius and color. -/
structure Cell where
  X : Nat
  Y : Nat
  R : Nat
  Color : RGBA
deriving DecidableEq

/-- The `RGBA()` method of Go's `color.RGBA`: each stored byte `c` is
returned as the 16-bit alpha-premultiplied component `c | c<<8`. -/
def rgbaR (c : RGBA) : Nat := c.r ||| (c.r <<< 8)

def rgbaG (c : RGBA) : Nat := c.g ||| (c.g <<< 8)

def rgbaB (c : RGBA) : Nat := c.b ||| (c.b <<< 8)

/-- `Cell.getRGB` from sim.go: recombine `(r & 0xFF) << 16 + (g & 0xFF) << 8
+ b & 0xFF` from the `RGBA()` components. -/
def getRGB (c : Cell) : Nat :=
  ((rgbaR c.Color &&& 0xFF) <<< 16) + ((rgbaG c.Color &&& 0xFF) <<< 8) +
    (rgbaB c.Color &&& 0xFF)

/-- `Cell.setRGB` from sim.go: store the three bytes of `i` (alpha 255). -/
def setRGB (c : Cell) (i : Nat) : Cell :=
  { c with Color := ⟨getR i, getG i, getB i, toUInt8 255⟩ }

/-- `createCell` from sim.go. -/
def createCell (x y clr : Nat) : Cell :=
  { X := x, Y := y, R := CELLSIZE, Color := ⟨getR clr, getG clr, getB clr, toUInt8 255⟩ }

/-- `createPopulation` from sim.go (extended variant): `W*W` cells in the
source's loop order (`n`-th cell has `i = n / W + 1`, `j = n % W + 1`); a
cell is populated with `rand.Intn(0xFFFFFF)` when its uniform sample is
below `coverage`, else it gets color `0x000000`. `samples` and `draws` are
the oracle streams for `rand.Float64` and `rand.Intn`. -/
def createPopulation (W : Nat) (coverage : ℚ) (samples : Nat → ℚ)
    (draws : Nat → Nat) : List Cell :=
  (List.range (W * W)).map fun n =>
    if samples n < coverage then
      createCell ((n / W + 1) * CELLSIZE) ((n % W + 1) * CELLSIZE) (draws n % 0xFFFFFF)
    else
      createCell ((n / W + 1) * CELLSIZE) ((n % W + 1) * CELLSIZE) 0x000000

/-! ### C10: the 24-bit code round-trips through the cell color -/

/-- Masking an 8-bit stored component back out of its 16-bit premultiplied
form returns the component. -/
theorem premul_and_ff (x : Nat) (hx : x < 256) : (x ||| (x <<< 8)) &&& 0xFF = x := by
  apply Nat.eq_of_testBit_eq
  intro i
  have hff : (0xFF : Nat) = 2 ^ 8 - 1 := rfl
  simp only [Nat.testBit_and, Nat.testBit_or, Nat.testBit_shiftLeft, hff,
    Nat.testBit_two_pow_sub_one]
  by_cases hi : i < 8
  · have h8 : ¬ (i ≥ 8) := by omega
    simp [hi, h8]
  · have hxb : Nat.testBit x i = false := by
      apply Nat.testBit_lt_two_pow
      calc x < 256 := hx
        _ = 2 ^ 8 := rfl
        _ ≤ 2 ^ i := Nat.pow_le_pow_right (by omega) (by omega)
    simp [hi, hxb]

/-- The three byte accessors are below 256. -/
theorem getR_lt (i : Nat) : getR i < 256 := Nat.mod_lt _ (by omega)

theorem getG_lt (i : Nat) : getG i < 256 := Nat.mod_lt _ (by omega)

theorem getB_lt (i : Nat) : getB i < 256 := Nat.mod_lt _ (by omega)

/-- Splitting a 24-bit integer into bytes and recombining is the identity. -/
theorem bytes_recombine (i : Nat) (h : i ≤ 0xFFFFFF) :
    (getR i <<< 16) + (getG i <<< 8) + getB i = i := by
  unfold getR getG getB toUInt8
  have hff : (0xFF : Nat) = 2 ^ 8 - 1 := rfl
  simp only [hff, Nat.and_pow_two_sub_one_eq_mod, Nat.shiftRight_eq_div_pow,
    Nat.shiftLeft_eq]
  have h16 : (2 : Nat) ^ 16 = 65536 := by norm_num
  have h8 : (2 : Nat) ^ 8 = 256 := by norm_num
  rw [h16, h8]
  norm_num
  omega

/-- **C10.** Storing any code `i ∈ [0, 0xFFFFFF]` with `setRGB` and reading
it back with `getRGB` returns `i`: the 24-bit code round-trips losslessly
through the cell's `color.RGBA` storage. -/
theorem getRGB_setRGB (c : Cell) (i : Nat) (h : i ≤ 0xFFFFFF) :
    getRGB (setRGB c i) = i := by
  unfold getRGB setRGB rgbaR rgbaG rgbaB
  simp only
  rw [premul_and_ff _ (getR_lt i), premul_and_ff _ (getG_lt i),
    premul_and_ff _ (getB_lt i)]
  exact bytes_recombine i h

/-- Witness for C10 at `i = 0x1A2B3C`. -/
theorem getRGB_setRGB_witness :
    (0x1A2B3C : Nat) ≤ 0xFFFFFF ∧
      getRGB (setRGB (createCell 0 0 0) 0x1A2B3C) = 0x1A2B3C :=
  ⟨by decide, getRGB_setRGB (createCell 0 0 0) 0x1A2B3C (by decide)⟩

/-- `createCell` stores `clr`'s bytes, so reading the color back gives `clr`
for every 24-bit `clr`; shared helper for the population claims. -/
theorem getRGB_createCell (x y clr : Nat) (h : clr ≤ 0xFFFFFF) :
    getRGB (createCell x y clr) = clr := by
  unfold getRGB createCell rgbaR rgbaG rgbaB
  simp only
  rw [premul_and_ff _ (getR_lt clr), premul_and_ff _ (getG_lt clr),
    premul_and_ff _ (getB_lt clr)]
  exact bytes_recombine clr h

/-! ### C4: the populated branch of createPopulation -/

/-- **C4 counterexample.** `rand.Intn(0xFFFFFF)` draws from `[0, 0xFFFFFE]`,
so a draw of `0` is admissible; with coverage `1` the first cell's sample
`0` is below coverage, yet the cell holds the sentinel code `0` — the claim
that every below-coverage cell holds a nonzero code is false. -/
theorem createPopulation_zero_draw_cex :
    (0 : ℚ) < 1 ∧
      getRGB ((createPopulation 1 1 (fun _ => 0) (fun _ => 0)).getD 0
        (createCell 0 0 0)) = 0 := by
  constructor
  · norm_num
  · decide

/-- **C4 amended.** After `createPopulation`, a cell whose uniform sample
was below `coverage` holds exactly its `rand.Intn(0xFFFFFF)` draw, a code in
`[0, 0xFFFFFE]` (possibly the sentinel `0`); a cell whose sample was not
below `coverage` holds the sentinel `0`. -/
theorem createPopulation_code (W : Nat) (coverage : ℚ) (samples : Nat → ℚ)
    (draws : Nat → Nat) (idx : Nat) (hidx : idx < W * W) :
    getRGB ((createPopulation W coverage samples draws).getD idx (createCell 0 0 0)) =
        (if samples idx < coverage then draws idx % 0xFFFFFF else 0) ∧
      getRGB ((createPopulation W coverage samples draws).getD idx (createCell 0 0 0))
        ≤ 0xFFFFFE := by
  have hlen : idx < (createPopulation W coverage samples draws).length := by
    simpa [createPopulation] using hidx
  have hget : (createPopulation W coverage samples draws).getD idx (createCell 0 0 0) =
      (if samples idx < coverage then
        createCell ((idx / W + 1) * CELLSIZE) ((idx % W + 1) * CELLSIZE)
          (draws idx % 0xFFFFFF)
      else
        createCell ((idx / W + 1) * CELLSIZE) ((idx % W + 1) * CELLSIZE) 0) := by
    rw [List.getD_eq_getElem?_getD]
    unfold createPopulation
    rw [List.getElem?_map, List.getElem?_range hidx]
    rfl
  rw [hget]
  have hdraw : draws idx % 0xFFFFFF < 0xFFFFFF := Nat.mod_lt _ (by omega)
  by_cases hs : samples idx < coverage
  · rw [if_pos hs, if_pos hs, getRGB_createCell _ _ _ (by omega)]
    omega
  · rw [if_neg hs, if_neg hs, getRGB_createCell _ _ _ (by omega)]
    omega

/-- Witness for C4's amended claim at `W = 1`, coverage `1`, sample `0`,
draw `5`. -/
theorem createPopulation_code_witness :
    getRGB ((createPopulation 1 1 (fun _ => 0) (fun _ => 5)).getD 0
        (createCell 0 0 0)) =
        (if (0 : ℚ) < 1 then 5 % 0xFFFFFF else 0) ∧
      getRGB ((createPopulation 1 1 (fun _ => 0) (fun _ => 5)).getD 0
        (createCell 0 0 0)) ≤ 0xFFFFFE :=
  createPopulation_code 1 1 (fun _ => 0) (fun _ => 5) 0 (by decide)

/-! ### Neighbourhood topology (main.go `findNeighboursIndex` and helpers)

The source uses the global grid side `WIDTH`; it is a parameter `W` here.
Indices and offsets are Go ints, modelled as `Int`. -/

def topLeft (n : ℤ) : Bool := n == 0

def topRight (W n : ℤ) : Bool := n == W - 1

def bottomLeft (W n : ℤ) : Bool := n == W * (W - 1)

def bottomRight (W n : ℤ) : Bool := n == W * W - 1

def top (W n : ℤ) : Bool := n < W

def left (W n : ℤ) : Bool := n % W == 0

def right (W n : ℤ) : Bool := n % W == W - 1

def bottom (W n : ℤ) : Bool := W * (W - 1) ≤ n

def c1 (W n : ℤ) : ℤ := n - W - 1

def c2 (W n : ℤ) : ℤ := n - W

def c3 (W n : ℤ) : ℤ := n - W + 1

def c4 (n : ℤ) : ℤ := n - 1

def c5 (n : ℤ) : ℤ := n + 1

def c6 (W n : ℤ) : ℤ := n + W - 1

def c7 (W n : ℤ) : ℤ := n + W

def c8 (W n : ℤ) : ℤ := n + W + 1

/-- `findNeighboursIndex` from main.go: classify `n` by the switch's case
order and return the corresponding neighbour indices. -/
def findNeighboursIndex (W n : ℤ) : List ℤ :=
  if topLeft n then [c5 n, c7 W n, c8 W n]
  else if topRight W n then [c4 n, c6 W n, c7 W n]
  else if bottomLeft W n then [c2 W n, c3 W n, c5 n]
  else if bottomRight W n then [c1 W n, c2 W n, c4 n]
  else if top W n then [c4 n, c5 n, c6 W n, c7 W n, c8 W n]
  else if left W n then [c2 W n, c3 W n, c5 n, c7 W n, c8 W n]
  else if right W n then [c1 W n, c2 W n, c4 n, c6 W n, c7 W n]
  else if bottom W n then [c1 W n, c2 W n, c3 W n, c4 n, c5 n]
  else [c1 W n, c2 W n, c3 W n, c4 n, c5 n, c6 W n, c7 W n, c8 W n]

/-- The claim's classification: the four corner indices, built from the
source's corner predicates. -/
def isCorner (W n : ℤ) : Prop :=
  topLeft n = true ∨ topRight W n = true ∨ bottomLeft W n = true ∨ bottomRight W n = true

/-- An index on the boundary (first or last row or column). -/
def isBoundary (W n : ℤ) : Prop :=
  top W n = true ∨ left W n = true ∨ right W n = true ∨ bottom W n = true

/-- A non-corner edge index. -/
def isEdge (W n : ℤ) : Prop := isBoundary W n ∧ ¬ isCorner W n

/-- An interior index. -/
def isInterior (W n : ℤ) : Prop := ¬ isBoundary W n

/-- Every neighbour returned by `findNeighboursIndex` is inside the grid
and distinct from its centre; shared helper used by the bounds claim and by
the diffusion-step analysis. -/
theorem findNeighbours_bounds (W n : ℤ) (h3 : 3 ≤ W) (h0 : 0 ≤ n)
    (h1 : n < W * W) :
    ∀ m ∈ findNeighboursIndex W n, 0 ≤ m ∧ m < W * W ∧ m ≠ n := by
  have hW0 : (0 : ℤ) < W := by omega
  have hr0 : 0 ≤ n % W := Int.emod_nonneg n (by omega)
  have hrW : n % W < W := Int.emod_lt_of_pos n hW0
  have hqr : W * (n / W) + n % W = n := Int.ediv_add_emod n W
  have h2W : 2 * W ≤ W * W := mul_le_mul_of_nonneg_right (by omega) (by omega)
  have h3W : 3 * W ≤ W * W := mul_le_mul_of_nonneg_right (by omega) (by omega)
  have hWW : W * (W - 1) = W * W - W := by ring
  have hW2 : W * (W - 2) = W * W - 2 * W := by ring
  have hq2 : n / W ≤ W - 1 → W * (n / W) ≤ W * (W - 1) :=
    fun h => mul_le_mul_of_nonneg_left h (by omega)
  have hq2' : n / W ≤ W - 2 → W * (n / W) ≤ W * (W - 2) :=
    fun h => mul_le_mul_of_nonneg_left h (by omega)
  have hq1' : 1 ≤ n / W → W * 1 ≤ W * (n / W) :=
    fun h => mul_le_mul_of_nonneg_left h (by omega)
  have hdivlow : W ≤ n → 1 ≤ n / W :=
    fun h => (Int.le_ediv_iff_mul_le hW0).mpr (by omega)
  unfold findNeighboursIndex
  split_ifs with htl htr hbl hbr ht hl hr hb <;>
    intro m hm <;>
    simp only [List.mem_cons, List.not_mem_nil, or_false,
      c1, c2, c3, c4, c5, c6, c7, c8] at hm
  -- top-left corner: n = 0
  · simp only [topLeft, beq_iff_eq] at htl
    subst htl
    rcases hm with rfl | rfl | rfl <;> refine ⟨by omega, by omega, by omega⟩
  -- top-right corner: n = W - 1
  · simp only [topRight, beq_iff_eq] at htr
    subst htr
    rcases hm with rfl | rfl | rfl <;> refine ⟨by omega, by omega, by omega⟩
  -- bottom-left corner: n = W * (W - 1)
  · simp only [bottomLeft, beq_iff_eq] at hbl
    subst hbl
    rcases hm with rfl | rfl | rfl <;> refine ⟨by omega, by omega, by omega⟩
  -- bottom-right corner: n = W * W - 1
  · simp only [bottomRight, beq_iff_eq] at hbr
    subst hbr
    rcases hm with rfl | rfl | rfl <;> refine ⟨by omega, by omega, by omega⟩
  -- top edge: 1 ≤ n ≤ W - 2
  · simp only [topLeft, beq_iff_eq] at htl
    simp only [topRight, beq_iff_eq] at htr
    simp only [top, decide_eq_true_eq] at ht
    rcases hm with rfl | rfl | rfl | rfl | rfl <;> refine ⟨by omega, by omega, by omega⟩
  -- left edge: n = W * q with 1 ≤ q ≤ W - 2
  · simp only [topLeft, beq_iff_eq] at htl
    simp only [bottomLeft, beq_iff_eq] at hbl
    simp only [top, decide_eq_true_eq] at ht
    simp only [left, beq_iff_eq] at hl
    push_neg at ht
    have hd1 : 1 ≤ n / W := hdivlow ht
    have hd2 : n / W ≤ W - 2 := by
      by_contra hcon
      push_neg at hcon
      have heq : n / W = W - 1 := by
        have hle : n / W ≤ W - 1 := by
          by_contra hcon2
          push_neg at hcon2
          have : W * W ≤ W * (n / W) := mul_le_mul_of_nonneg_left (by omega) (by omega)
          omega
        omega
      rw [heq] at hqr
      omega
    have hQ1 := hq1' hd1
    have hQ2 := hq2' hd2
    rcases hm with rfl | rfl | rfl | rfl | rfl <;> refine ⟨by omega, by omega, by omega⟩
  -- right edge: n % W = W - 1 with 1 ≤ q ≤ W - 2
  · simp only [topRight, beq_iff_eq] at htr
    simp only [bottomRight, beq_iff_eq] at hbr
    simp only [top, decide_eq_true_eq] at ht
    simp only [right, beq_iff_eq] at hr
    push_neg at ht
    have hd1 : 1 ≤ n / W := hdivlow ht
    have hd2 : n / W ≤ W - 2 := by
      by_contra hcon
      push_neg at hcon
      have heq : n / W = W - 1 := by
        have hle : n / W ≤ W - 1 := by
          by_contra hcon2
          push_neg at hcon2
          have : W * W ≤ W * (n / W) := mul_le_mul_of_nonneg_left (by omega) (by omega)
          omega
        omega
      rw [heq] at hqr
      omega
    have hQ1 := hq1' hd1
    have hQ2 := hq2' hd2
    rcases hm with rfl | rfl | rfl | rfl | rfl <;> refine ⟨by omega, by omega, by omega⟩
  -- bottom edge: W * (W - 1) + 1 ≤ n ≤ W * W - 2
  · simp only [bottomLeft, beq_iff_eq] at hbl
    simp only [bottomRight, beq_iff_eq] at hbr
    simp only [bottom, decide_eq_true_eq] at hb
    rcases hm with rfl | rfl | rfl | rfl | rfl <;> refine ⟨by omega, by omega, by omega⟩
  -- interior: W ≤ n < W * (W - 1), 1 ≤ n % W ≤ W - 2
  · simp only [top, decide_eq_true_eq] at ht
    simp only [left, beq_iff_eq] at hl
    simp only [right, beq_iff_eq] at hr
    simp only [bottom, decide_eq_true_eq] at hb
    push_neg at ht hb
    have hd1 : 1 ≤ n / W := hdivlow ht
    have hd2 : n / W ≤ W - 2 := by
      by_contra hcon
      push_neg at hcon
      have heq : n / W = W - 1 := by
        have hle : n / W ≤ W - 1 := by
          by_contra hcon2
          push_neg at hcon2
          have : W * W ≤ W * (n / W) := mul_le_mul_of_nonneg_left (by omega) (by omega)
          omega
        omega
      rw [heq] at hqr
      omega
    have hQ1 := hq1' hd1
    have hQ2 := hq2' hd2
    rcases hm with rfl | rfl | rfl | rfl | rfl | rfl | rfl | rfl <;>
      refine ⟨by omega, by omega, by omega⟩

/-! ### C5: neighbour counts by class -/

/-- **C5.** For every width `W ≥ 3` and index `idx ∈ [0, W*W)`: a corner
index gets exactly 3 neighbours, a non-corner edge index exactly 5, and an
interior index exactly 8. -/
theorem findNeighbours_count (W n : ℤ) (h3 : 3 ≤ W) (_h0 : 0 ≤ n)
    (_h1 : n < W * W) :
    (isCorner W n → (findNeighboursIndex W n).length = 3) ∧
      (isEdge W n → (findNeighboursIndex W n).length = 5) ∧
      (isInterior W n → (findNeighboursIndex W n).length = 8) := by
  unfold findNeighboursIndex
  split_ifs with htl htr hbl hbr ht hl hr hb <;>
    refine ⟨fun hc => ?_, fun he => ?_, fun hi => ?_⟩
  -- top-left corner
  · rfl
  · exact absurd (Or.inl htl) he.2
  · refine absurd (Or.inl ?_) hi
    simp only [topLeft, beq_iff_eq] at htl
    simp only [top, decide_eq_true_eq]
    omega
  -- top-right corner
  · rfl
  · exact absurd (Or.inr (Or.inl htr)) he.2
  · refine absurd (Or.inl ?_) hi
    simp only [topRight, beq_iff_eq] at htr
    simp only [top, decide_eq_true_eq]
    omega
  -- bottom-left corner
  · rfl
  · exact absurd (Or.inr (Or.inr (Or.inl hbl))) he.2
  · refine absurd (Or.inr (Or.inr (Or.inr ?_))) hi
    simp only [bottomLeft, beq_iff_eq] at hbl
    simp only [bottom, decide_eq_true_eq]
    omega
  -- bottom-right corner
  · rfl
  · exact absurd (Or.inr (Or.inr (Or.inr hbr))) he.2
  · refine absurd (Or.inr (Or.inr (Or.inr ?_))) hi
    simp only [bottomRight, beq_iff_eq] at hbr
    simp only [bottom, decide_eq_true_eq]
    have hWW : W * (W - 1) = W * W - W := by ring
    omega
  -- top edge
  · rcases hc with h | h | h | h
    · exact absurd h htl
    · exact absurd h htr
    · exact absurd h hbl
    · exact absurd h hbr
  · rfl
  · exact absurd (Or.inl ht) hi
  -- left edge
  · rcases hc with h | h | h | h
    · exact absurd h htl
    · exact absurd h htr
    · exact absurd h hbl
    · exact absurd h hbr
  · rfl
  · exact absurd (Or.inr (Or.inl hl)) hi
  -- right edge
  · rcases hc with h | h | h | h
    · exact absurd h htl
    · exact absurd h htr
    · exact absurd h hbl
    · exact absurd h hbr
  · rfl
  · exact absurd (Or.inr (Or.inr (Or.inl hr))) hi
  -- bottom edge
  · rcases hc with h | h | h | h
    · exact absurd h htl
    · exact absurd h htr
    · exact absurd h hbl
    · exact absurd h hbr
  · rfl
  · exact absurd (Or.inr (Or.inr (Or.inr hb))) hi
  -- interior
  · rcases hc with h | h | h | h
    · exact absurd h htl
    · exact absurd h htr
    · exact absurd h hbl
    · exact absurd h hbr
  · rcases he.1 with h | h | h | h
    · exact absurd h ht
    · exact absurd h hl
    · exact absurd h hr
    · exact absurd h hb
  · rfl

/-- Witness for C5 at `W = 3`: corner `0`, edge `1`, interior `4`. -/
theorem findNeighbours_count_witness :
    isCorner 3 0 ∧ (findNeighboursIndex 3 0).length = 3 ∧
      isEdge 3 1 ∧ (findNeighboursIndex 3 1).length = 5 ∧
      isInterior 3 4 ∧ (findNeighboursIndex 3 4).length = 8 := by
  have hc : isCorner 3 0 := Or.inl (by decide)
  have he : isEdge 3 1 := by
    refine ⟨Or.inl (by decide), ?_⟩
    rintro (h | h | h | h) <;> exact absurd h (by decide)
  have hi : isInterior 3 4 := by
    rintro (h | h | h | h) <;> exact absurd h (by decide)
  exact ⟨hc, (findNeighbours_count 3 0 (by decide) (by decide) (by decide)).1 hc,
    he, (findNeighbours_count 3 1 (by decide) (by decide) (by decide)).2.1 he,
    hi, (findNeighbours_count 3 4 (by decide) (by decide) (by decide)).2.2 hi⟩

/-! ### C6: neighbours stay in bounds and differ from the centre -/

/-- **C6.** For every width `W ≥ 3` and index `idx ∈ [0, W*W)`, every index
returned by `findNeighboursIndex` lies in `[0, W*W)` and differs from `idx`
(no escape from the grid, no wraparound, no self-neighbour). -/
theorem findNeighbours_in_bounds (W n : ℤ) (h3 : 3 ≤ W) (h0 : 0 ≤ n)
    (h1 : n < W * W) :
    ∀ m ∈ findNeighboursIndex W n, 0 ≤ m ∧ m < W * W ∧ m ≠ n :=
  findNeighbours_bounds W n h3 h0 h1

/-- Witness for C6 at `W = 3`, `idx = 4`, neighbour `0`. -/
theorem findNeighbours_in_bounds_witness :
    (0 : ℤ) ∈ findNeighboursIndex 3 4 ∧
      (0 : ℤ) ≤ 0 ∧ (0 : ℤ) < 3 * 3 ∧ (0 : ℤ) ≠ 4 :=
  ⟨by decide,
    findNeighbours_in_bounds 3 4 (by decide) (by decide) (by decide) 0 (by decide)⟩

/-! ### Diffusion engine (main.go extended variant, interaction loop)

The two `rand` streams are carried in an `Rng` state; `rand.Intn n` is the
next integer-stream value modulo `n` (exactly the values the Go call can
produce) and `rand.Float64` is the next rational-stream value. -/

/-- Oracle state for the random source. -/
structure Rng where
  ints : Nat → Nat
  flts : Nat → ℚ
  ip : Nat
  fp : Nat

/-- `rand.Intn n`: a value in `[0, n)` plus the advanced source. -/
def randIntn (rng : Rng) (n : Nat) : Nat × Rng :=
  (rng.ints rng.ip % n, ⟨rng.ints, rng.flts, rng.ip + 1, rng.fp⟩)

/-- `rand.Float64`: the next sample plus the advanced source. -/
def randFloat (rng : Rng) : ℚ × Rng :=
  (rng.flts rng.fp, ⟨rng.ints, rng.flts, rng.ip, rng.fp + 1⟩)

/-- The mutable simulation state of one tick: the global `cells`, the
tick's exchange counter `chg`, and the random source. -/
structure SimState where
  cells : List Cell
  chg : Nat
  rng : Rng

/-- `cells[i].getRGB()` on the modelled grid. -/
def cellCode (cells : List Cell) (i : Nat) : Nat :=
  getRGB (cells.getD i (createCell 0 0 0))

/-- `diff` from main.go: total trait distance over positions `0..4` (the
source loop is `for i := 0; i < 5`) between the codes of cells `a1`, `a2`. -/
def diff (cells : List Cell) (a1 a2 : Nat) : ℤ :=
  (List.range 5).foldl
    (fun d i => d + traitDistance (cellCode cells a1) (cellCode cells a2) i) 0

/-- Body of the extended interaction loop for one neighbour `nb` of the
chosen cell `r` (main.go lines 470-495): if the neighbour is populated,
draw `dp`; on `dp < 1 - d/96` draw a feature `i`; if `d ≠ 0` draw the
direction with `rand.Intn(1)` and write the replaced code onto the
neighbour, incrementing `chg`. -/
def interactNeighbour (r : Nat) (st : SimState) (nb : ℤ) : SimState :=
  if cellCode st.cells nb.toNat ≠ 0 then
    let d := diff st.cells r nb.toNat
    let probability : ℚ := 1 - (d : ℚ) / 96
    let dp := randFloat st.rng
    if dp.1 < probability then
      let i := randIntn dp.2 6
      if d ≠ 0 then
        let dir := randIntn i.2 1
        let rp :=
          if dir.1 = 0 then
            replace (cellCode st.cells nb.toNat) (extract (cellCode st.cells r) i.1) i.1
          else
            replace (cellCode st.cells r) (extract (cellCode st.cells nb.toNat) i.1) i.1
        ⟨st.cells.set nb.toNat (setRGB (st.cells.getD nb.toNat (createCell 0 0 0)) rp),
          st.chg + 1, dir.2⟩
      else ⟨st.cells, st.chg, i.2⟩
    else ⟨st.cells, st.chg, dp.2⟩
  else st

/-- The populated branch of one interaction: visit every neighbour of `r`
in order, threading the state. -/
def interactAll (W r : Nat) (st : SimState) : SimState :=
  (findNeighboursIndex (W : ℤ) (r : ℤ)).foldl (interactNeighbour r) st

/-- One interaction (main.go lines 463-497): draw `r`; if `cells[r]` is
populated, run the neighbour loop, else do nothing further. -/
def interaction (W : Nat) (st : SimState) : SimState :=
  if cellCode st.cells (randIntn st.rng (W * W)).1 ≠ 0 then
    interactAll W (randIntn st.rng (W * W)).1
      ⟨st.cells, st.chg, (randIntn st.rng (W * W)).2⟩
  else ⟨st.cells, st.chg, (randIntn st.rng (W * W)).2⟩

/-- One simulation tick: reset the exchange counter, then run `n`
interactions. (The per-interaction metric recomputations `featureDistAvg`
and `similarCount` are pure and touch neither the grid, the counter, nor
the random source, so they do not appear in the state transition.) -/
def tick (W n : Nat) (st : SimState) : SimState :=
  (interaction W)^[n] ⟨st.cells, 0, st.rng⟩

/-- Run `T` ticks, collecting each tick's final exchange counter. -/
def runTicks (W n : Nat) : Nat → SimState → SimState × List Nat
  | 0, st => (st, [])
  | T + 1, st =>
    let st1 := tick W n st
    let rest := runTicks W n T st1
    (rest.1, st1.chg :: rest.2)

/-- A concrete all-zero random source, used by the concrete witnesses. -/
def rng0 : Rng := ⟨fun _ => 0, fun _ => 0, 0, 0⟩

/-! ### C3: the direction draw is degenerate and r is never overwritten -/

/-- `interactNeighbour` never touches any grid index other than
`nb.toNat`. -/
theorem interactNeighbour_preserves_other (r j : Nat) (st : SimState) (nb : ℤ)
    (hne : nb.toNat ≠ j) :
    cellCode (interactNeighbour r st nb).cells j = cellCode st.cells j := by
  have hset : ∀ c : Cell,
      cellCode (st.cells.set nb.toNat c) j = cellCode st.cells j := by
    intro c
    unfold cellCode
    rw [List.getD_eq_getElem?_getD, List.getD_eq_getElem?_getD,
      List.getElem?_set_ne hne]
  simp only [interactNeighbour]
  split_ifs with h1 h2 h3 h4
  · exact hset _
  · exact hset _
  · rfl
  · rfl
  · rfl

/-- The neighbour fold never touches index `r` itself, as long as every
list element differs from `r`. -/
theorem foldl_interactNeighbour_preserves (r : Nat) :
    ∀ (l : List ℤ), (∀ m ∈ l, m.toNat ≠ r) → ∀ st : SimState,
      cellCode ((l.foldl (interactNeighbour r) st)).cells r = cellCode st.cells r := by
  intro l
  induction l with
  | nil => intro _ st; rfl
  | cons x xs ih =>
    intro hl st
    rw [List.foldl_cons, ih (fun m hm => hl m (List.mem_cons_of_mem _ hm)),
      interactNeighbour_preserves_other r r st x (hl x (List.mem_cons_self x xs))]

/-- **C3.** In the source, the direction draw `rand.Intn(1)` can only ever
produce `0`, so the "either direction" choice is degenerate: the first
branch is always taken and the chosen cell `r` is never the cell that gets
overwritten — `interactAll` leaves `r`'s code unchanged for every random
source, contradicting the claimed 50/50 direction choice. -/
theorem exchange_direction_degenerate (rng : Rng) (W r : Nat) (st : SimState)
    (h3 : 3 ≤ W) (hr : r < W * W) :
    (randIntn rng 1).1 = 0 ∧
      cellCode (interactAll W r st).cells r = cellCode st.cells r := by
  constructor
  · exact Nat.mod_one _
  · unfold interactAll
    refine foldl_interactNeighbour_preserves r _ (fun m hm => ?_) st
    have h3' : (3 : ℤ) ≤ (W : ℤ) := by exact_mod_cast h3
    have hr0 : (0 : ℤ) ≤ (r : ℤ) := Int.ofNat_nonneg r
    have hr1 : (r : ℤ) < (W : ℤ) * (W : ℤ) := by exact_mod_cast hr
    obtain ⟨hm0, _, hmne⟩ := findNeighbours_bounds (W : ℤ) (r : ℤ) h3' hr0 hr1 m hm
    intro hcon
    apply hmne
    rw [← Int.toNat_of_nonneg hm0, hcon]

/-- Witness for C3 at the all-zero source, `W = 3`, `r = 4`, empty grid. -/
theorem exchange_direction_degenerate_witness :
    (randIntn rng0 1).1 = 0 ∧
      cellCode (interactAll 3 4 ⟨[], 0, rng0⟩).cells 4 =
        cellCode (⟨[], 0, rng0⟩ : SimState).cells 4 :=
  exchange_direction_degenerate rng0 3 4 ⟨[], 0, rng0⟩ (by decide) (by decide)

/-! ### C9: a coverage-0 grid is never mutated and counts no exchanges -/

/-- With coverage `0` every cell is created with color `0`, because a
`rand.Float64` sample is never below `0`. -/
theorem cellCode_createPopulation_zero (W : Nat) (samples : Nat → ℚ)
    (draws : Nat → Nat) (hs : ∀ k, 0 ≤ samples k) (i : Nat) :
    cellCode (createPopulation W 0 samples draws) i = 0 := by
  unfold cellCode
  rcases Nat.lt_or_ge i (W * W) with h | h
  · have hget : (createPopulation W 0 samples draws).getD i (createCell 0 0 0) =
        createCell ((i / W + 1) * CELLSIZE) ((i % W + 1) * CELLSIZE) 0 := by
      rw [List.getD_eq_getElem?_getD]
      unfold createPopulation
      rw [List.getElem?_map, List.getElem?_range h]
      have hns : ¬ samples i < 0 := not_lt.mpr (hs i)
      simp [hns]
    rw [hget]
    exact getRGB_createCell _ _ 0 (by omega)
  · have hlen : (createPopulation W 0 samples draws).length = W * W := by
      simp [createPopulation]
    have hget : (createPopulation W 0 samples draws).getD i (createCell 0 0 0) =
        createCell 0 0 0 := by
      rw [List.getD_eq_getElem?_getD, List.getElem?_eq_none (by omega)]
      rfl
    rw [hget]
    exact getRGB_createCell 0 0 0 (by omega)

/-- An interaction on an all-sentinel grid is a no-op on cells and
counter. -/
theorem interaction_all_zero (W : Nat) (st : SimState)
    (hz : ∀ i, cellCode st.cells i = 0) :
    (interaction W st).cells = st.cells ∧ (interaction W st).chg = st.chg := by
  unfold interaction
  rw [if_neg (by simp [hz])]
  exact ⟨rfl, rfl⟩

/-- A whole tick on an all-sentinel grid keeps the cells and reports zero
exchanges. -/
theorem tick_all_zero (W n : Nat) (st : SimState)
    (hz : ∀ i, cellCode st.cells i = 0) :
    (tick W n st).cells = st.cells ∧ (tick W n st).chg = 0 := by
  unfold tick
  have key : ∀ m : Nat, ((interaction W)^[m] ⟨st.cells, 0, st.rng⟩).cells = st.cells ∧
      ((interaction W)^[m] ⟨st.cells, 0, st.rng⟩).chg = 0 := by
    intro m
    induction m with
    | zero => exact ⟨rfl, rfl⟩
    | succ k ih =>
      rw [Function.iterate_succ_apply']
      have hzk : ∀ i, cellCode ((interaction W)^[k] ⟨st.cells, 0, st.rng⟩).cells i = 0 := by
        intro i
        rw [ih.1]
        exact hz i
      obtain ⟨hc, hg⟩ := interaction_all_zero W _ hzk
      exact ⟨hc.trans ih.1, hg.trans ih.2⟩
  exact key n

/-- **C9.** With coverage `0.0` the whole grid is sentinel, so for every
interaction count `n`, every tick count `T` and every random source, no
interaction ever changes any cell and the per-tick exchange counter is `0`
for every tick. -/
theorem coverage_zero_no_exchange (W n T : Nat) (samples : Nat → ℚ)
    (draws : Nat → Nat) (rng : Rng) (hs : ∀ k, 0 ≤ samples k) :
    (runTicks W n T ⟨createPopulation W 0 samples draws, 0, rng⟩).1.cells =
        createPopulation W 0 samples draws ∧
      ∀ c ∈ (runTicks W n T ⟨createPopulation W 0 samples draws, 0, rng⟩).2, c = 0 := by
  have hzero := cellCode_createPopulation_zero W samples draws hs
  suffices key : ∀ (T' : Nat) (st : SimState),
      st.cells = createPopulation W 0 samples draws →
      (runTicks W n T' st).1.cells = createPopulation W 0 samples draws ∧
        ∀ c ∈ (runTicks W n T' st).2, c = 0 by
    exact key T _ rfl
  intro T'
  induction T' with
  | zero =>
    intro st hst
    exact ⟨hst, by intro c hc; simp [runTicks] at hc⟩
  | succ k ih =>
    intro st hst
    have hz : ∀ i, cellCode st.cells i = 0 := by
      intro i; rw [hst]; exact hzero i
    obtain ⟨hc, hg⟩ := tick_all_zero W n st hz
    have hst1 : (tick W n st).cells = createPopulation W 0 samples draws :=
      hc.trans hst
    obtain ⟨ih1, ih2⟩ := ih (tick W n st) hst1
    refine ⟨ih1, ?_⟩
    intro c hcm
    simp only [runTicks] at hcm
    rcases List.mem_cons.mp hcm with rfl | hcm'
    · exact hg
    · exact ih2 c hcm'

/-- Witness for C9 at `W = 1`, `n = 1`, `T = 1`, all-zero streams: the grid
after the run is the initial grid. -/
theorem coverage_zero_no_exchange_witness :
    (runTicks 1 1 1 ⟨createPopulation 1 0 (fun _ => 0) (fun _ => 0), 0, rng0⟩).1.cells =
      createPopulation 1 0 (fun _ => 0) (fun _ => 0) :=
  (coverage_zero_no_exchange 1 1 1 (fun _ => 0) (fun _ => 0) rng0 (fun _ => le_refl 0)).1

/-! ### Metrics: featureDistAvg (sim.go lines 90-103) -/

/-- The accumulation loop of `featureDistAvg` in sim.go: for every cell `c`
of the grid and every neighbour of `c`, add
`featureDistance(cells[c].getRGB(), cells[neighbour].getRGB())` whenever the
*neighbour* is populated. (The source checks only
`cells[neighbour].getRGB() != 0x0000`; it never checks cell `c` itself.) -/
def featureDistAccum (W : ℤ) (cells : List Cell) : Nat :=
  ((List.range cells.length).map fun (c : Nat) =>
    ((findNeighboursIndex W (c : ℤ)).map fun nb =>
      if cellCode cells nb.toNat ≠ 0 then
        featureDistance (cellCode cells c) (cellCode cells nb.toNat)
      else 0).sum).sum

/-- `featureDistAvg` from sim.go: the accumulated sum, integer-divided by
the width, scaled by the coverage fraction and truncated back to an int
(all quantities here are nonnegative, so Go's truncation is the floor). -/
def featureDistAvg (W : ℤ) (coverage : ℚ) (cells : List Cell) : ℤ :=
  ⌊((featureDistAccum W cells / W.toNat : Nat) : ℚ) * coverage⌋

/-- The accumulation as the spec's sentence states it: only ordered pairs
in which *both* the cell and its neighbour are populated contribute. This
definition follows the spec's words and exists to be compared with
`featureDistAccum`, which follows the source. -/
def featureDistAccumBothPop (W : ℤ) (cells : List Cell) : Nat :=
  ((List.range cells.length).map fun (c : Nat) =>
    ((findNeighboursIndex W (c : ℤ)).map fun nb =>
      if cellCode cells c ≠ 0 ∧ cellCode cells nb.toNat ≠ 0 then
        featureDistance (cellCode cells c) (cellCode cells nb.toNat)
      else 0).sum).sum

/-- The extra contribution of the pairs the spec excludes: cells `c` that
are themselves unpopulated but have populated neighbours. -/
def featureDistAccumSentinel (W : ℤ) (cells : List Cell) : Nat :=
  ((List.range cells.length).map fun (c : Nat) =>
    if cellCode cells c = 0 then
      ((findNeighboursIndex W (c : ℤ)).map fun nb =>
        if cellCode cells nb.toNat ≠ 0 then
          featureDistance (cellCode cells c) (cellCode cells nb.toNat)
        else 0).sum
    else 0).sum

/-- A 3×3 grid whose cell 0 is the sentinel and whose other cells all hold
code `0x111111`. -/
def cexGrid : List Cell :=
  (List.range 9).map fun n => createCell 0 0 (if n = 0 then 0 else 0x111111)

/-- **C8 counterexample.** On `cexGrid` the source's accumulation differs
from the spec's both-populated accumulation: the sentinel cell 0 has three
populated neighbours, and each such pair contributes
`featureDistance(0, 0x111111) = 6` that the claim says contributes
nothing. -/
theorem featureDistAccum_sentinel_cex :
    featureDistAccum 3 cexGrid ≠ featureDistAccumBothPop 3 cexGrid ∧
      featureDistAccum 3 cexGrid = featureDistAccumBothPop 3 cexGrid + 18 := by
  constructor
  · decide
  · decide

/-- Summing a pointwise sum of two functions over a list splits. -/
theorem sum_map_split (l : List Nat) (f g h : Nat → Nat)
    (hp : ∀ x ∈ l, f x = g x + h x) :
    (l.map f).sum = (l.map g).sum + (l.map h).sum := by
  induction l with
  | nil => simp
  | cons x xs ih =>
    simp only [List.map_cons, List.sum_cons]
    rw [hp x (List.mem_cons_self x xs),
      ih (fun y hy => hp y (List.mem_cons_of_mem _ hy))]
    omega

/-- **C8 amended.** `featureDistAvg`'s accumulation skips exactly the pairs
whose *neighbour* is unpopulated: it equals the spec's both-populated sum
plus the contributions of unpopulated cells with populated neighbours (the
source never tests cell `c` itself, so those pairs do contribute). -/
theorem featureDistAccum_decomposition (W : ℤ) (cells : List Cell) :
    featureDistAccum W cells =
      featureDistAccumBothPop W cells + featureDistAccumSentinel W cells := by
  unfold featureDistAccum featureDistAccumBothPop featureDistAccumSentinel
  apply sum_map_split
  intro c _
  by_cases hc : cellCode cells c = 0
  · rw [if_pos hc]
    have hz : ((findNeighboursIndex W (c : ℤ)).map fun nb =>
        if cellCode cells c ≠ 0 ∧ cellCode cells nb.toNat ≠ 0 then
          featureDistance (cellCode cells c) (cellCode cells nb.toNat)
        else 0).sum = 0 := by
      apply List.sum_eq_zero
      intro y hy
      obtain ⟨nb, _, rfl⟩ := List.mem_map.mp hy
      rw [if_neg]
      intro hcon
      exact hcon.1 hc
    rw [hz]
    omega
  · rw [if_neg hc]
    have heq : ((findNeighboursIndex W (c : ℤ)).map fun nb =>
        if cellCode cells c ≠ 0 ∧ cellCode cells nb.toNat ≠ 0 then
          featureDistance (cellCode cells c) (cellCode cells nb.toNat)
        else 0) =
        ((findNeighboursIndex W (c : ℤ)).map fun nb =>
          if cellCode cells nb.toNat ≠ 0 then
            featureDistance (cellCode cells c) (cellCode cells nb.toNat)
          else 0) := by
      apply List.map_congr_left
      intro nb _
      by_cases hnb : cellCode cells nb.toNat ≠ 0
      · rw [if_pos ⟨hc, hnb⟩, if_pos hnb]
      · rw [if_neg (fun hcon => hnb hcon.2), if_neg hnb]
    rw [heq]
    omega

end CultureSim
